import Mathlib

/-!
Verification of the car physics/transform subsystem of a top-down driving
prototype (source file src/car.rs).  The numeric code is embedded over the
exact reals: every f32 operation of the source (clamp, rem_euclid, the glam
vector operations, the bevy transform composition) is translated literally,
with real arithmetic in place of floating-point arithmetic.
-/

noncomputable section

/-- A two dimensional vector of reals, modelling glam Vec2. -/
@[ext]
structure Vec2 where
  x : ℝ
  y : ℝ

/-- Componentwise addition of two vectors. -/
def Vec2.add (a b : Vec2) : Vec2 := ⟨a.x + b.x, a.y + b.y⟩

/-- Componentwise subtraction of two vectors. -/
def Vec2.sub (a b : Vec2) : Vec2 := ⟨a.x - b.x, a.y - b.y⟩

/-- Multiplication of a vector by a scalar on the right. -/
def Vec2.smul (a : Vec2) (c : ℝ) : Vec2 := ⟨a.x * c, a.y * c⟩

/-- Division of a vector by a scalar. -/
def Vec2.sdiv (a : Vec2) (c : ℝ) : Vec2 := ⟨a.x / c, a.y / c⟩

/-- Componentwise division of two vectors, modelling glam Div for Vec2. -/
def Vec2.cdiv (a b : Vec2) : Vec2 := ⟨a.x / b.x, a.y / b.y⟩

/-- Dot product of two vectors. -/
def Vec2.dot (a b : Vec2) : ℝ := a.x * b.x + a.y * b.y

/-- Squared euclidean length, modelling glam length_squared. -/
def Vec2.lengthSq (a : Vec2) : ℝ := a.dot a

/-- Euclidean length, modelling glam length. -/
def Vec2.length (a : Vec2) : ℝ := Real.sqrt a.lengthSq

/-- Minimum of the two components, modelling glam min_element. -/
def Vec2.minElement (a : Vec2) : ℝ := min a.x a.y

/-- Unit vector at a given angle, modelling glam Vec2::from_angle. -/
def Vec2.fromAngle (t : ℝ) : Vec2 := ⟨Real.cos t, Real.sin t⟩

/-- Linear interpolation from a toward b, modelling glam Vec2::lerp. -/
def Vec2.lerp (a b : Vec2) (s : ℝ) : Vec2 := a.add ((b.sub a).smul s)

/-- Projection of a vector onto a vector assumed to be of unit length,
modelling glam Vec2::project_onto_normalized, which computes rhs * self.dot(rhs). -/
def Vec2.projectOntoNormalized (a rhs : Vec2) : Vec2 := rhs.smul (a.dot rhs)

/-- Clamp of the length of a vector from above, modelling glam
Vec2::clamp_length_max: if length_squared exceeds max * max the vector is
rescaled to length max, otherwise it is returned unchanged. -/
def Vec2.clampLengthMax (a : Vec2) (m : ℝ) : Vec2 :=
  if m * m < a.lengthSq then a.smul (m / Real.sqrt a.lengthSq) else a

/-- Scalar clamp, modelling Rust f32::clamp(self, min, max). -/
def clampf (v lo hi : ℝ) : ℝ := if v < lo then lo else if hi < v then hi else v

/-- Euclidean remainder, modelling Rust f32::rem_euclid for a positive
modulus: the representative of a modulo b lying in the interval from 0 to b. -/
def remEuclid (a b : ℝ) : ℝ := a - b * (⌊a / b⌋ : ℤ)

/-- The constant tau of std::f32::consts, equal to two pi. -/
def TAU : ℝ := 2 * Real.pi

/-- A resource containing information about the track (src/car.rs TrackConfig). -/
@[ext]
structure TrackConfig where
  logical_size : Vec2
  scale : ℝ

/-- Default TrackConfig: logical size 100 by 100, scale 1. -/
def TrackConfig.default : TrackConfig := ⟨⟨100, 100⟩, 1⟩

/-- Transforms a track position to a world position:
(track_coords - logical_size * 0.5) * scale. -/
def TrackConfig.track_to_world (c : TrackConfig) (track_coords : Vec2) : Vec2 :=
  (track_coords.sub (c.logical_size.smul 0.5)).smul c.scale

/-- Transforms a world position to a track position:
(world_pos / scale) + logical_size * 0.5. -/
def TrackConfig.world_to_track (c : TrackConfig) (world_pos : Vec2) : Vec2 :=
  (world_pos.sdiv c.scale).add (c.logical_size.smul 0.5)

/-- Updates the scale to (window_size / logical_size).min_element(). -/
def TrackConfig.compute_scale (c : TrackConfig) (window_size : Vec2) : TrackConfig :=
  { c with scale := (window_size.cdiv c.logical_size).minElement }

/-- The per-frame resize system TrackConfig::update_scale.  The source calls
compute_scale with the vector Vec2::new(window.height(), window.width()),
so the window height is placed in the x component and the window width in
the y component. -/
def TrackConfig.update_scale (c : TrackConfig) (width height : ℝ) : TrackConfig :=
  c.compute_scale ⟨height, width⟩

/-- Physical simulation constants (src/car.rs CarPhysicsConfig). -/
@[ext]
structure CarPhysicsConfig where
  rotational_acceleration : ℝ
  max_rotational_velocity : ℝ
  forward_acceleration : ℝ
  friction : ℝ
  drift_factor : ℝ
  max_forward_velocity : ℝ

/-- Default CarPhysicsConfig from the source. -/
def CarPhysicsConfig.default : CarPhysicsConfig := ⟨50, TAU, 200, 0.97, 0.99, 150⟩

/-- Driving input for cars (src/car.rs CarControls): turn holds left and
right in its x and y components, accel holds forward and back. -/
@[ext]
structure CarControls where
  turn : Vec2
  accel : Vec2

/-- The all-zero control input, the derived Default of CarControls. -/
def zeroControls : CarControls := ⟨⟨0, 0⟩, ⟨0, 0⟩⟩

/-- Physical position data for cars on the track (src/car.rs TrackTransform). -/
@[ext]
structure TrackTransform where
  position : Vec2
  rotation : ℝ
  velocity : Vec2
  rotational_velocity : ℝ

/-- The derived Default of TrackTransform: all fields zero. -/
def TrackTransform.default : TrackTransform := ⟨⟨0, 0⟩, 0, ⟨0, 0⟩, 0⟩

/-- The normalized acceleration control of one physics step:
(accel.x.clamp(0,1) - accel.y.clamp(0,1)).clamp(-1,1). -/
def accelControl (c : CarControls) : ℝ :=
  clampf (clampf c.accel.x 0 1 - clampf c.accel.y 0 1) (-1) 1

/-- The normalized turn control before the dead zone is applied:
(turn.x.clamp(0,1) - turn.y.clamp(0,1)).clamp(-1,1). -/
def rawTurnControl (c : CarControls) : ℝ :=
  clampf (clampf c.turn.x 0 1 - clampf c.turn.y 0 1) (-1) 1

/-- The normalized turn control of one physics step: the raw turn control,
snapped to exactly 0 when its absolute value is below 0.0001. -/
def turnControl (c : CarControls) : ℝ :=
  if |rawTurnControl c| < 0.0001 then 0 else rawTurnControl c

/-- Rotational velocity after one physics step: reset to 0 when the turn
control is 0, otherwise integrated with rotational_acceleration and clamped
to the band of max_rotational_velocity. -/
def stepRotationalVelocity (t : TrackTransform) (c : CarControls)
    (config : CarPhysicsConfig) (dt : ℝ) : ℝ :=
  if turnControl c = 0 then 0
  else clampf (t.rotational_velocity + turnControl c * config.rotational_acceleration * dt)
    (-config.max_rotational_velocity) config.max_rotational_velocity

/-- Rotation after one physics step: unchanged when the turn control is 0,
otherwise integrated with the new rotational velocity and normalized with
rem_euclid by TAU. -/
def stepRotation (t : TrackTransform) (c : CarControls)
    (config : CarPhysicsConfig) (dt : ℝ) : ℝ :=
  if turnControl c = 0 then t.rotation
  else remEuclid (t.rotation + stepRotationalVelocity t c config dt * dt) TAU

/-- The forward heading vector of one physics step, taken at the new rotation. -/
def forwardVector (t : TrackTransform) (c : CarControls)
    (config : CarPhysicsConfig) (dt : ℝ) : Vec2 :=
  Vec2.fromAngle (stepRotation t c config dt)

/-- The velocity after acceleration along the heading and friction:
(velocity + forward_vector * accel_control * dt * forward_acceleration) * friction. -/
def velocityAfterFriction (t : TrackTransform) (c : CarControls)
    (config : CarPhysicsConfig) (dt : ℝ) : Vec2 :=
  (t.velocity.add ((((forwardVector t c config dt).smul (accelControl c)).smul dt).smul
    config.forward_acceleration)).smul config.friction

/-- Velocity after one physics step: the drift blend of the projection onto
the heading with the raw velocity, with the length clamped from above by
max_forward_velocity. -/
def stepVelocity (t : TrackTransform) (c : CarControls)
    (config : CarPhysicsConfig) (dt : ℝ) : Vec2 :=
  (((velocityAfterFriction t c config dt).projectOntoNormalized (forwardVector t c config dt)).lerp
    (velocityAfterFriction t c config dt) config.drift_factor).clampLengthMax
    config.max_forward_velocity

/-- One physics step for one car, the loop body of
TrackTransform::update_physics, translated statement by statement. -/
def TrackTransform.update_physics (t : TrackTransform) (controls : CarControls)
    (config : CarPhysicsConfig) (dt : ℝ) : TrackTransform :=
  { position := t.position.add ((stepVelocity t controls config dt).smul dt)
    rotation := stepRotation t controls config dt
    velocity := stepVelocity t controls config dt
    rotational_velocity := stepRotationalVelocity t controls config dt }

/-- Iterated physics steps: fold update_physics over a list of
(controls, config, dt) triples, one triple per fixed tick. -/
def runSteps : TrackTransform → List (CarControls × CarPhysicsConfig × ℝ) → TrackTransform
  | t, [] => t
  | t, s :: rest => runSteps (t.update_physics s.1 s.2.1 s.2.2) rest

/-- A three dimensional vector of reals, modelling glam Vec3. -/
@[ext]
structure Vec3 where
  x : ℝ
  y : ℝ
  z : ℝ

/-- Extension of a Vec2 with a z component, modelling glam Vec2::extend. -/
def Vec2.extend (a : Vec2) (z : ℝ) : Vec3 := ⟨a.x, a.y, z⟩

/-- Componentwise addition of three dimensional vectors. -/
def Vec3.add (a b : Vec3) : Vec3 := ⟨a.x + b.x, a.y + b.y, a.z + b.z⟩

/-- Multiplication of a three dimensional vector by a scalar. -/
def Vec3.smul (a : Vec3) (c : ℝ) : Vec3 := ⟨a.x * c, a.y * c, a.z * c⟩

/-- Componentwise product of three dimensional vectors, modelling glam Mul. -/
def Vec3.cmul (a b : Vec3) : Vec3 := ⟨a.x * b.x, a.y * b.y, a.z * b.z⟩

/-- Dot product of three dimensional vectors. -/
def Vec3.dot (a b : Vec3) : ℝ := a.x * b.x + a.y * b.y + a.z * b.z

/-- Cross product of three dimensional vectors. -/
def Vec3.cross (a b : Vec3) : Vec3 :=
  ⟨a.y * b.z - a.z * b.y, a.z * b.x - a.x * b.z, a.x * b.y - a.y * b.x⟩

/-- A quaternion, modelling glam Quat with components x, y, z, w. -/
@[ext]
structure Quat where
  x : ℝ
  y : ℝ
  z : ℝ
  w : ℝ

/-- The identity quaternion. -/
def Quat.identity : Quat := ⟨0, 0, 0, 1⟩

/-- Hamilton product of quaternions, in the component order used by glam. -/
def Quat.mulQuat (a b : Quat) : Quat :=
  ⟨a.w * b.x + a.x * b.w + a.y * b.z - a.z * b.y,
   a.w * b.y - a.x * b.z + a.y * b.w + a.z * b.x,
   a.w * b.z + a.x * b.y - a.y * b.x + a.z * b.w,
   a.w * b.w - a.x * b.x - a.y * b.y - a.z * b.z⟩

/-- Rotation of a vector by a quaternion, modelling glam Quat::mul_vec3:
rhs * (w * w - b.dot(b)) + b * (rhs.dot(b) * 2) + b.cross(rhs) * (w * 2)
where b is the vector part. -/
def Quat.mulVec3 (q : Quat) (v : Vec3) : Vec3 :=
  ((v.smul (q.w * q.w - (Vec3.mk q.x q.y q.z).dot (Vec3.mk q.x q.y q.z))).add
    ((Vec3.mk q.x q.y q.z).smul (v.dot (Vec3.mk q.x q.y q.z) * 2))).add
    (((Vec3.mk q.x q.y q.z).cross v).smul (q.w * 2))

/-- Quaternion for a rotation about the z axis, modelling
glam Quat::from_rotation_z: components (0, 0, sin(angle/2), cos(angle/2)). -/
def Quat.fromRotationZ (angle : ℝ) : Quat :=
  ⟨0, 0, Real.sin (angle * 0.5), Real.cos (angle * 0.5)⟩

/-- A bevy Transform: translation, rotation and scale stored separately. -/
@[ext]
structure Transform where
  translation : Vec3
  rotation : Quat
  scale : Vec3

/-- Transform holding only a translation. -/
def Transform.fromTranslation (t : Vec3) : Transform := ⟨t, Quat.identity, ⟨1, 1, 1⟩⟩

/-- Transform holding only a scale. -/
def Transform.fromScale (s : Vec3) : Transform := ⟨⟨0, 0, 0⟩, Quat.identity, s⟩

/-- Transform holding only a rotation. -/
def Transform.fromRotation (q : Quat) : Transform := ⟨⟨0, 0, 0⟩, q, ⟨1, 1, 1⟩⟩

/-- Application of a Transform to a point, modelling bevy
Transform::transform_point: scale, then rotate, then translate. -/
def Transform.transformPoint (t : Transform) (p : Vec3) : Vec3 :=
  (t.rotation.mulVec3 (t.scale.cmul p)).add t.translation

/-- Composition of Transforms, modelling bevy Transform::mul_transform. -/
def Transform.mulTransform (a b : Transform) : Transform :=
  ⟨a.transformPoint b.translation, a.rotation.mulQuat b.rotation, a.scale.cmul b.scale⟩

/-- The loop body of TrackTransform::update_transform: the render transform
from_translation(track_to_world(position).extend(0)) * from_scale(splat scale)
* from_rotation(from_rotation_z(rotation)). -/
def TrackTransform.update_transform (track_config : TrackConfig) (track : TrackTransform) : Transform :=
  ((Transform.fromTranslation ((track_config.track_to_world track.position).extend 0)).mulTransform
    (Transform.fromScale ⟨track_config.scale, track_config.scale, track_config.scale⟩)).mulTransform
    (Transform.fromRotation (Quat.fromRotationZ track.rotation))

/-! ## Helper lemmas -/

theorem clampf_mem (v lo hi : ℝ) (h : lo ≤ hi) :
    lo ≤ clampf v lo hi ∧ clampf v lo hi ≤ hi := by
  unfold clampf
  split_ifs with h1 h2 <;> constructor <;> linarith

theorem abs_clampf_le (v M : ℝ) (hM : 0 ≤ M) : |clampf v (-M) M| ≤ M := by
  have h := clampf_mem v (-M) M (by linarith)
  rw [abs_le]
  exact h

theorem lengthSq_nonneg (a : Vec2) : 0 ≤ a.lengthSq := by
  simp only [Vec2.lengthSq, Vec2.dot]
  nlinarith [mul_self_nonneg a.x, mul_self_nonneg a.y]

theorem length_nonneg (a : Vec2) : 0 ≤ a.length := Real.sqrt_nonneg _

theorem lengthSq_smul (a : Vec2) (c : ℝ) : (a.smul c).lengthSq = (c * c) * a.lengthSq := by
  simp only [Vec2.smul, Vec2.lengthSq, Vec2.dot]
  ring

theorem length_smul (a : Vec2) (c : ℝ) : (a.smul c).length = |c| * a.length := by
  rw [Vec2.length, Vec2.length, lengthSq_smul, Real.sqrt_mul (mul_self_nonneg c),
    Real.sqrt_mul_self_eq_abs]

theorem clampLengthMax_length_le (a : Vec2) (m : ℝ) (hm : 0 ≤ m) :
    (a.clampLengthMax m).length ≤ m := by
  unfold Vec2.clampLengthMax
  split_ifs with h
  · have hpos : 0 < a.lengthSq := lt_of_le_of_lt (mul_self_nonneg m) h
    have hs : 0 < Real.sqrt a.lengthSq := Real.sqrt_pos.mpr hpos
    rw [length_smul, abs_of_nonneg (div_nonneg hm hs.le), Vec2.length,
      div_mul_cancel₀ _ hs.ne.symm]
  · rw [Vec2.length]
    calc Real.sqrt a.lengthSq ≤ Real.sqrt (m * m) := Real.sqrt_le_sqrt (not_lt.mp h)
    _ = m := Real.sqrt_mul_self hm

theorem clampLengthMax_length_le_self (a : Vec2) (m : ℝ) :
    (a.clampLengthMax m).length ≤ a.length := by
  unfold Vec2.clampLengthMax
  split_ifs with h
  · have hpos : 0 < a.lengthSq := lt_of_le_of_lt (mul_self_nonneg m) h
    have hs : 0 < Real.sqrt a.lengthSq := Real.sqrt_pos.mpr hpos
    rw [length_smul, abs_div, abs_of_nonneg hs.le, Vec2.length, div_mul_cancel₀ _ hs.ne.symm]
    calc |m| = Real.sqrt (m * m) := (Real.sqrt_mul_self_eq_abs m).symm
    _ ≤ Real.sqrt a.lengthSq := Real.sqrt_le_sqrt h.le
  · exact le_refl _

theorem fromAngle_unit (t : ℝ) :
    (Vec2.fromAngle t).x * (Vec2.fromAngle t).x + (Vec2.fromAngle t).y * (Vec2.fromAngle t).y = 1 := by
  simp only [Vec2.fromAngle]
  linear_combination Real.sin_sq_add_cos_sq t

theorem lerp_proj_lengthSq (v f : Vec2) (d : ℝ) (hf : f.x * f.x + f.y * f.y = 1) :
    ((v.projectOntoNormalized f).lerp v d).lengthSq
      = (v.dot f) * (v.dot f) + d * d * (v.lengthSq - (v.dot f) * (v.dot f)) := by
  simp only [Vec2.lerp, Vec2.projectOntoNormalized, Vec2.add, Vec2.sub, Vec2.smul,
    Vec2.lengthSq, Vec2.dot]
  linear_combination ((v.x * f.x + v.y * f.y) * (1 - d))^2 * hf

theorem lerp_proj_lengthSq_le (v f : Vec2) (d : ℝ) (hf : f.x * f.x + f.y * f.y = 1)
    (hd0 : 0 ≤ d) (hd1 : d ≤ 1) :
    ((v.projectOntoNormalized f).lerp v d).lengthSq ≤ v.lengthSq := by
  rw [lerp_proj_lengthSq v f d hf]
  have hcs : (v.dot f) * (v.dot f) ≤ v.lengthSq := by
    simp only [Vec2.dot, Vec2.lengthSq]
    nlinarith [sq_nonneg (v.x * f.y - v.y * f.x), hf]
  have hd2 : 0 ≤ 1 - d * d := by nlinarith
  nlinarith [mul_nonneg hd2 (sub_nonneg.mpr hcs)]

theorem remEuclid_eq_fract (a b : ℝ) (hb : b ≠ 0) :
    remEuclid a b = b * Int.fract (a / b) := by
  unfold remEuclid
  rw [Int.fract]
  field_simp

theorem remEuclid_nonneg (a b : ℝ) (hb : 0 < b) : 0 ≤ remEuclid a b := by
  rw [remEuclid_eq_fract a b hb.ne.symm]
  exact mul_nonneg hb.le (Int.fract_nonneg _)

theorem remEuclid_lt (a b : ℝ) (hb : 0 < b) : remEuclid a b < b := by
  rw [remEuclid_eq_fract a b hb.ne.symm]
  calc b * Int.fract (a / b) < b * 1 := by
        exact mul_lt_mul_of_pos_left (Int.fract_lt_one _) hb
  _ = b := mul_one b

theorem rawTurnControl_zeroControls : rawTurnControl zeroControls = 0 := by
  norm_num [rawTurnControl, zeroControls, clampf]

theorem turnControl_zeroControls : turnControl zeroControls = 0 := by
  norm_num [turnControl, rawTurnControl_zeroControls]

theorem accelControl_zeroControls : accelControl zeroControls = 0 := by
  norm_num [accelControl, zeroControls, clampf]

theorem TAU_pos : 0 < TAU := by
  rw [TAU]
  have := Real.pi_pos
  linarith

/-! ## Claim theorems -/

/-- C5: for every TrackConfig with positive scale and every track point p,
world_to_track applied to track_to_world of p gives back exactly p, hence in
particular p within an absolute tolerance of 1e-4. -/
theorem world_track_roundtrip (c : TrackConfig) (p : Vec2) (h : 0 < c.scale) :
    c.world_to_track (c.track_to_world p) = p := by
  have hs : c.scale ≠ 0 := ne_of_gt h
  ext
  · simp only [TrackConfig.world_to_track, TrackConfig.track_to_world, Vec2.add, Vec2.sub,
      Vec2.smul, Vec2.sdiv]
    field_simp
  · simp only [TrackConfig.world_to_track, TrackConfig.track_to_world, Vec2.add, Vec2.sub,
      Vec2.smul, Vec2.sdiv]
    field_simp

/-- Witness for world_track_roundtrip at the config with logical size
(100, 100) and scale 2, and the point (3, 4). -/
theorem world_track_roundtrip_witness :
    TrackConfig.world_to_track ⟨⟨100, 100⟩, 2⟩
      (TrackConfig.track_to_world ⟨⟨100, 100⟩, 2⟩ ⟨3, 4⟩) = ⟨3, 4⟩ :=
  world_track_roundtrip ⟨⟨100, 100⟩, 2⟩ ⟨3, 4⟩ (by norm_num)

/-- C6: with positive logical size and positive window size, compute_scale
sets the scale to the minimum of window x over logical x and window y over
logical y, logical_size times the scale fits inside the window on both axes,
and at least one axis is exactly tight. -/
theorem compute_scale_min_and_fit (c : TrackConfig) (w : Vec2)
    (hx : 0 < c.logical_size.x) (hy : 0 < c.logical_size.y)
    (hwx : 0 < w.x) (hwy : 0 < w.y) :
    (c.compute_scale w).scale = min (w.x / c.logical_size.x) (w.y / c.logical_size.y) ∧
    c.logical_size.x * (c.compute_scale w).scale ≤ w.x ∧
    c.logical_size.y * (c.compute_scale w).scale ≤ w.y ∧
    (c.logical_size.x * (c.compute_scale w).scale = w.x ∨
      c.logical_size.y * (c.compute_scale w).scale = w.y) := by
  have hscale : (c.compute_scale w).scale
      = min (w.x / c.logical_size.x) (w.y / c.logical_size.y) := rfl
  have hxc : c.logical_size.x * (w.x / c.logical_size.x) = w.x := by
    field_simp
  have hyc : c.logical_size.y * (w.y / c.logical_size.y) = w.y := by
    field_simp
  rcases le_total (w.x / c.logical_size.x) (w.y / c.logical_size.y) with hle | hle
  · have hmin : (c.compute_scale w).scale = w.x / c.logical_size.x := by
      rw [hscale, min_eq_left hle]
    refine ⟨hscale, ?_, ?_, Or.inl ?_⟩
    · rw [hmin, hxc]
    · rw [hmin]
      calc c.logical_size.y * (w.x / c.logical_size.x)
          ≤ c.logical_size.y * (w.y / c.logical_size.y) :=
            mul_le_mul_of_nonneg_left hle hy.le
      _ = w.y := hyc
    · rw [hmin, hxc]
  · have hmin : (c.compute_scale w).scale = w.y / c.logical_size.y := by
      rw [hscale, min_eq_right hle]
    refine ⟨hscale, ?_, ?_, Or.inr ?_⟩
    · rw [hmin]
      calc c.logical_size.x * (w.y / c.logical_size.y)
          ≤ c.logical_size.x * (w.x / c.logical_size.x) :=
            mul_le_mul_of_nonneg_left hle hx.le
      _ = w.x := hxc
    · rw [hmin, hyc]
    · rw [hmin, hyc]

/-- Witness for compute_scale_min_and_fit at logical size (100, 100) and
window size (200, 50). -/
theorem compute_scale_min_and_fit_witness :
    (TrackConfig.compute_scale ⟨⟨100, 100⟩, 1⟩ ⟨200, 50⟩).scale
        = min ((200 : ℝ) / 100) ((50 : ℝ) / 100) ∧
      (100 : ℝ) * (TrackConfig.compute_scale ⟨⟨100, 100⟩, 1⟩ ⟨200, 50⟩).scale ≤ 200 ∧
      (100 : ℝ) * (TrackConfig.compute_scale ⟨⟨100, 100⟩, 1⟩ ⟨200, 50⟩).scale ≤ 50 ∧
      ((100 : ℝ) * (TrackConfig.compute_scale ⟨⟨100, 100⟩, 1⟩ ⟨200, 50⟩).scale = 200 ∨
        (100 : ℝ) * (TrackConfig.compute_scale ⟨⟨100, 100⟩, 1⟩ ⟨200, 50⟩).scale = 50) :=
  compute_scale_min_and_fit ⟨⟨100, 100⟩, 1⟩ ⟨200, 50⟩
    (by norm_num) (by norm_num) (by norm_num) (by norm_num)

/-- C7: the resize system passes Vec2::new(window.height(), window.width())
to compute_scale, so the window height is divided by the logical width and
the window width by the logical height.  At logical size (200, 100) with a
window of width 100 and height 400 the resulting scale is 1, not the value
min(width / logical_x, height / logical_y) = 1/2 stated by the spec, and the
scaled logical width 200 overflows the window width 100. -/
theorem update_scale_swaps_window_axes :
    (TrackConfig.update_scale ⟨⟨200, 100⟩, 1⟩ 100 400).scale = 1 ∧
      min ((100 : ℝ) / 200) ((400 : ℝ) / 100) = 1 / 2 ∧
      (200 : ℝ) * (TrackConfig.update_scale ⟨⟨200, 100⟩, 1⟩ 100 400).scale > 100 := by
  refine ⟨?_, ?_, ?_⟩
  · norm_num [TrackConfig.update_scale, TrackConfig.compute_scale, Vec2.cdiv,
      Vec2.minElement, min_def]
  · norm_num [min_def]
  · norm_num [TrackConfig.update_scale, TrackConfig.compute_scale, Vec2.cdiv,
      Vec2.minElement, min_def]

/-- C8: the physics step is a pure function of the kinematics, the controls,
the config and the time delta: identical inputs give identical outputs. -/
theorem update_physics_deterministic (t1 t2 : TrackTransform) (c1 c2 : CarControls)
    (cfg1 cfg2 : CarPhysicsConfig) (dt1 dt2 : ℝ)
    (ht : t1 = t2) (hc : c1 = c2) (hcfg : cfg1 = cfg2) (hdt : dt1 = dt2) :
    t1.update_physics c1 cfg1 dt1 = t2.update_physics c2 cfg2 dt2 := by
  rw [ht, hc, hcfg, hdt]

/-- Witness for update_physics_deterministic at the default state, zero
controls, the default config and dt of 1/60. -/
theorem update_physics_deterministic_witness :
    TrackTransform.update_physics TrackTransform.default zeroControls
        CarPhysicsConfig.default (1 / 60)
      = TrackTransform.update_physics TrackTransform.default zeroControls
        CarPhysicsConfig.default (1 / 60) :=
  update_physics_deterministic TrackTransform.default TrackTransform.default
    zeroControls zeroControls CarPhysicsConfig.default CarPhysicsConfig.default
    (1 / 60) (1 / 60) rfl rfl rfl rfl

/-- C10: a physics step whose normalized turn control is 0 leaves the
rotation field exactly unchanged, with no renormalization applied, so an
out-of-range rotation persists through such steps. -/
theorem zero_turn_step_preserves_rotation (t : TrackTransform) (c : CarControls)
    (cfg : CarPhysicsConfig) (dt : ℝ) (h : turnControl c = 0) :
    (t.update_physics c cfg dt).rotation = t.rotation := by
  show stepRotation t c cfg dt = t.rotation
  rw [stepRotation, if_pos h]

/-- Witness for zero_turn_step_preserves_rotation at a state whose rotation
10 lies outside the interval from 0 to 2 pi: the step keeps it at 10. -/
theorem zero_turn_step_preserves_rotation_witness :
    (TrackTransform.update_physics ⟨⟨0, 0⟩, 10, ⟨0, 0⟩, 0⟩ zeroControls
      CarPhysicsConfig.default (1 / 60)).rotation = 10 :=
  zero_turn_step_preserves_rotation ⟨⟨0, 0⟩, 10, ⟨0, 0⟩, 0⟩ zeroControls
    CarPhysicsConfig.default (1 / 60) turnControl_zeroControls

/-- C2: whenever the normalized turn control of a step is 0, which in
particular happens whenever the clamped left-minus-right turn difference has
absolute value below 0.0001, the step sets rotational_velocity to exactly 0
regardless of its prior value. -/
theorem zero_turn_control_zeroes_rotational_velocity (t : TrackTransform)
    (c : CarControls) (cfg : CarPhysicsConfig) (dt : ℝ)
    (h : turnControl c = 0 ∨ |rawTurnControl c| < 0.0001) :
    (t.update_physics c cfg dt).rotational_velocity = 0 := by
  have h0 : turnControl c = 0 := by
    rcases h with h | h
    · exact h
    · rw [turnControl, if_pos h]
  show stepRotationalVelocity t c cfg dt = 0
  rw [stepRotationalVelocity, if_pos h0]

/-- Witness for zero_turn_control_zeroes_rotational_velocity: the raw turn
input (0.5, 0.50005) has clamped difference -0.00005, inside the dead zone,
and the step drops the prior rotational velocity 7 to 0. -/
theorem zero_turn_control_zeroes_rotational_velocity_witness :
    (TrackTransform.update_physics ⟨⟨0, 0⟩, 0, ⟨0, 0⟩, 7⟩
      ⟨⟨0.5, 0.50005⟩, ⟨1, 0⟩⟩ CarPhysicsConfig.default (1 / 60)).rotational_velocity = 0 :=
  zero_turn_control_zeroes_rotational_velocity ⟨⟨0, 0⟩, 0, ⟨0, 0⟩, 7⟩
    ⟨⟨0.5, 0.50005⟩, ⟨1, 0⟩⟩ CarPhysicsConfig.default (1 / 60)
    (Or.inr (by norm_num [rawTurnControl, clampf, abs_lt]))

/-- C1: for every car state, control input, config with non-negative
max_forward_velocity and max_rotational_velocity, and non-negative dt, one
physics step leaves the velocity length at most max_forward_velocity and
the absolute rotational velocity at most max_rotational_velocity. -/
theorem update_physics_speed_and_rotational_bounds (t : TrackTransform)
    (c : CarControls) (cfg : CarPhysicsConfig) (dt : ℝ)
    (hmf : 0 ≤ cfg.max_forward_velocity) (hmr : 0 ≤ cfg.max_rotational_velocity)
    (hdt : 0 ≤ dt) :
    (t.update_physics c cfg dt).velocity.length ≤ cfg.max_forward_velocity ∧
    |(t.update_physics c cfg dt).rotational_velocity| ≤ cfg.max_rotational_velocity := by
  constructor
  · exact clampLengthMax_length_le _ _ hmf
  · show |stepRotationalVelocity t c cfg dt| ≤ cfg.max_rotational_velocity
    rw [stepRotationalVelocity]
    split_ifs
    · simpa using hmr
    · exact abs_clampf_le _ _ hmr

/-- Witness for update_physics_speed_and_rotational_bounds at a state with
velocity (300, 400) of length 500 and rotational velocity 9, full forward
and left input, and a config with speed caps 150 and 7. -/
theorem update_physics_speed_and_rotational_bounds_witness :
    (TrackTransform.update_physics ⟨⟨0, 0⟩, 0, ⟨300, 400⟩, 9⟩ ⟨⟨1, 0⟩, ⟨1, 0⟩⟩
        ⟨50, 7, 200, 0.97, 0.99, 150⟩ (1 / 60)).velocity.length ≤ (150 : ℝ) ∧
      |(TrackTransform.update_physics ⟨⟨0, 0⟩, 0, ⟨300, 400⟩, 9⟩ ⟨⟨1, 0⟩, ⟨1, 0⟩⟩
        ⟨50, 7, 200, 0.97, 0.99, 150⟩ (1 / 60)).rotational_velocity| ≤ (7 : ℝ) :=
  update_physics_speed_and_rotational_bounds ⟨⟨0, 0⟩, 0, ⟨300, 400⟩, 9⟩ ⟨⟨1, 0⟩, ⟨1, 0⟩⟩
    ⟨50, 7, 200, 0.97, 0.99, 150⟩ (1 / 60) (by norm_num) (by norm_num) (by norm_num)

/-- C4: with zero control input, friction in the half-open unit interval and
drift factor in the unit interval, one physics step does not increase the
velocity length, so repeated zero-input steps give a non-increasing speed. -/
theorem zero_input_step_speed_nonincreasing (t : TrackTransform)
    (cfg : CarPhysicsConfig) (dt : ℝ)
    (hf0 : 0 < cfg.friction) (hf1 : cfg.friction ≤ 1)
    (hd0 : 0 ≤ cfg.drift_factor) (hd1 : cfg.drift_factor ≤ 1) :
    (t.update_physics zeroControls cfg dt).velocity.length ≤ t.velocity.length := by
  have hunit : (forwardVector t zeroControls cfg dt).x * (forwardVector t zeroControls cfg dt).x
      + (forwardVector t zeroControls cfg dt).y * (forwardVector t zeroControls cfg dt).y = 1 :=
    fromAngle_unit (stepRotation t zeroControls cfg dt)
  have hvaf : velocityAfterFriction t zeroControls cfg dt = t.velocity.smul cfg.friction := by
    rw [velocityAfterFriction, accelControl_zeroControls]
    simp [Vec2.smul, Vec2.add]
  have h1 : (t.update_physics zeroControls cfg dt).velocity.length
      ≤ (((velocityAfterFriction t zeroControls cfg dt).projectOntoNormalized
          (forwardVector t zeroControls cfg dt)).lerp
          (velocityAfterFriction t zeroControls cfg dt) cfg.drift_factor).length :=
    clampLengthMax_length_le_self _ _
  have h2 : (((velocityAfterFriction t zeroControls cfg dt).projectOntoNormalized
        (forwardVector t zeroControls cfg dt)).lerp
        (velocityAfterFriction t zeroControls cfg dt) cfg.drift_factor).lengthSq
      ≤ (velocityAfterFriction t zeroControls cfg dt).lengthSq :=
    lerp_proj_lengthSq_le _ _ _ hunit hd0 hd1
  have h3 : (((velocityAfterFriction t zeroControls cfg dt).projectOntoNormalized
        (forwardVector t zeroControls cfg dt)).lerp
        (velocityAfterFriction t zeroControls cfg dt) cfg.drift_factor).length
      ≤ (velocityAfterFriction t zeroControls cfg dt).length := Real.sqrt_le_sqrt h2
  have h4 : (velocityAfterFriction t zeroControls cfg dt).length ≤ t.velocity.length := by
    rw [hvaf, length_smul, abs_of_pos hf0]
    exact mul_le_of_le_one_left (length_nonneg t.velocity) hf1
  linarith

/-- Witness for zero_input_step_speed_nonincreasing at velocity (3, 4) with
the default friction 0.97 and drift factor 0.99. -/
theorem zero_input_step_speed_nonincreasing_witness :
    (TrackTransform.update_physics ⟨⟨0, 0⟩, 0, ⟨3, 4⟩, 5⟩ zeroControls
        ⟨50, 7, 200, 0.97, 0.99, 150⟩ (1 / 60)).velocity.length
      ≤ (Vec2.mk 3 4).length :=
  zero_input_step_speed_nonincreasing ⟨⟨0, 0⟩, 0, ⟨3, 4⟩, 5⟩
    ⟨50, 7, 200, 0.97, 0.99, 150⟩ (1 / 60)
    (by norm_num) (by norm_num) (by norm_num) (by norm_num)

/-- One physics step keeps the rotation inside the interval from 0
inclusive to TAU exclusive. -/
theorem step_preserves_rotation_range (t : TrackTransform) (c : CarControls)
    (cfg : CarPhysicsConfig) (dt : ℝ) (h0 : 0 ≤ t.rotation) (h1 : t.rotation < TAU) :
    0 ≤ (t.update_physics c cfg dt).rotation ∧ (t.update_physics c cfg dt).rotation < TAU := by
  show 0 ≤ stepRotation t c cfg dt ∧ stepRotation t c cfg dt < TAU
  rw [stepRotation]
  split_ifs with h
  · exact ⟨h0, h1⟩
  · exact ⟨remEuclid_nonneg _ _ TAU_pos, remEuclid_lt _ _ TAU_pos⟩

/-- Any number of physics steps keeps the rotation inside the interval from
0 inclusive to TAU exclusive. -/
theorem runSteps_rotation_range (ss : List (CarControls × CarPhysicsConfig × ℝ)) :
    ∀ t : TrackTransform, 0 ≤ t.rotation → t.rotation < TAU →
      0 ≤ (runSteps t ss).rotation ∧ (runSteps t ss).rotation < TAU := by
  induction ss with
  | nil => intro t h0 h1; exact ⟨h0, h1⟩
  | cons s rest ih =>
      intro t h0 h1
      have hstep := step_preserves_rotation_range t s.1 s.2.1 s.2.2 h0 h1
      show 0 ≤ (runSteps (t.update_physics s.1 s.2.1 s.2.2) rest).rotation ∧
        (runSteps (t.update_physics s.1 s.2.1 s.2.2) rest).rotation < TAU
      exact ih _ hstep.1 hstep.2

/-- C3: starting from the default car state, after any finite sequence of
physics steps with arbitrary controls, configs and time deltas, the rotation
field lies in the interval from 0 inclusive to 2 pi exclusive. -/
theorem rotation_normalized_after_steps (ss : List (CarControls × CarPhysicsConfig × ℝ)) :
    0 ≤ (runSteps TrackTransform.default ss).rotation ∧
      (runSteps TrackTransform.default ss).rotation < 2 * Real.pi := by
  have h := runSteps_rotation_range ss TrackTransform.default (le_refl 0) TAU_pos
  rw [TAU] at h
  exact h

/-- C9: the render transform of the projection step decomposes exactly into
the translation track_to_world(position) with zero z component, the
rotation about the z axis by the kinematic rotation, and the uniform scale
track.scale on every axis. -/
theorem update_transform_decomposition (cfg : TrackConfig) (t : TrackTransform) :
    TrackTransform.update_transform cfg t =
      { translation := (cfg.track_to_world t.position).extend 0
        rotation := Quat.fromRotationZ t.rotation
        scale := ⟨cfg.scale, cfg.scale, cfg.scale⟩ } := by
  rw [TrackTransform.update_transform]
  ext <;>
    simp [Transform.mulTransform, Transform.transformPoint, Transform.fromTranslation,
      Transform.fromScale, Transform.fromRotation, Quat.mulVec3, Quat.mulQuat, Quat.identity,
      Vec3.cmul, Vec3.add, Vec3.smul, Vec3.dot, Vec3.cross, Vec2.extend] <;>
    ring
